import Mathlib

/-! Scene-construction protocol of `main.cpp`.

A shallow embedding of the scene-authoring script: the calls it makes into
the renderer backend (`pbrt::pbrtAttributeBegin`, `pbrt::pbrtTranslate`, ...)
are recorded as a list of `Command`s in call order, and every function of
`main.cpp` that only issues such calls becomes a function returning the list
of commands it emits.  `pbrt::Float` values are exact rationals in the command
layer and exact reals in `matrixToAxisAngle` (which needs `sqrt` and `acos`).
-/

namespace PbrtAsLib

/-! ## Data model -/

/-- Three-component vector `pbrt::Vector3f`, over the scalar type `α`. -/
structure Vector3f (α : Type) where
  x : α
  y : α
  z : α
  deriving DecidableEq, Repr

/-- Record `Transformation` of `main.cpp` (lines 54-70) with its default
member initialisers. -/
structure Transformation where
  Translate : Vector3f ℚ := ⟨0, 0, 0⟩
  Scale : Vector3f ℚ := ⟨1, 1, 1⟩
  Deg : ℚ := 0
  Rotate : Vector3f ℚ := ⟨1, 0, 0⟩
  deriving DecidableEq, Repr

/-- One call into the renderer backend, with its arguments. -/
inductive Command where
  | AttributeBegin
  | AttributeEnd
  | Translate (x y z : ℚ)
  | Scale (x y z : ℚ)
  | Rotate (deg x y z : ℚ)
  | NamedMaterial (name : String)
  | ParseFile (path : String)
  | ObjectBegin (name : String)
  | ObjectEnd
  | ObjectInstance (name : String)
  deriving DecidableEq, Repr

/-- How a call of `create_object` ends: it returns, or the loop body reads a
vector at the index `i` past its end (`operator[]` out of range). -/
inductive Status where
  | returned
  | outOfRange (i : Nat)
  deriving DecidableEq, Repr

/-! ## Operations -/

/-- Function `add_attribute` (lines 72-88): the calls it makes, in order.
The default value `""` of the parameter `include` is not modelled: the only
caller, `create_object`, passes all three arguments. -/
def add_attribute (transformation : Transformation) (material : String)
    (include_ : String) : List Command :=
  [Command.AttributeBegin,
   Command.Translate transformation.Translate.x transformation.Translate.y
     transformation.Translate.z,
   Command.Scale transformation.Scale.x transformation.Scale.y transformation.Scale.z,
   Command.Rotate transformation.Deg transformation.Rotate.x transformation.Rotate.y
     transformation.Rotate.z]
  ++ (if material = ".pbrt" then [Command.ParseFile material]
      else [Command.NamedMaterial material])
  ++ [Command.ParseFile include_]
  ++ [Command.AttributeEnd]

/-- Guard of `create_object` (line 95): the early return is taken when the
size of `materials` differs from the size of `transformations` AND from the
size of `includes`. -/
def lengthCheckFails (materials : List String) (transformations : List Transformation)
    (includes : List String) : Bool :=
  materials.length != transformations.length && materials.length != includes.length

/-- Loop of `create_object` (lines 98-100) from index `i` on: while
`i < materials.size()` it reads `transformations[i]`, `materials[i]` and
`includes[i]` and calls `add_attribute`.  A read past the end of a vector
stops the run with `Status.outOfRange i`; the commands emitted before it are
kept.  Sizes and the counter are natural numbers (the wrap of `int i` beyond
2^31 elements is not modelled). -/
def create_object_loop (materials : List String) (transformations : List Transformation)
    (includes : List String) (i : Nat) : List Command × Status :=
  if h : i < materials.length then
    match transformations[i]?, includes[i]? with
    | some t, some inc =>
      let rest := create_object_loop materials transformations includes (i + 1)
      (add_attribute t materials[i] inc ++ rest.1, rest.2)
    | _, _ => ([], Status.outOfRange i)
  else ([], Status.returned)
termination_by materials.length - i
decreasing_by omega

/-- Function `create_object` (lines 90-102): `pbrtObjectBegin(name)` is
called first, then the length check, then the loop, then `pbrtObjectEnd()`. -/
def create_object (name : String) (materials : List String)
    (transformations : List Transformation) (includes : List String) :
    List Command × Status :=
  if lengthCheckFails materials transformations includes then
    ([Command.ObjectBegin name], Status.returned)
  else
    match create_object_loop materials transformations includes 0 with
    | (cmds, Status.returned) =>
      (Command.ObjectBegin name :: cmds ++ [Command.ObjectEnd], Status.returned)
    | (cmds, Status.outOfRange i) =>
      (Command.ObjectBegin name :: cmds, Status.outOfRange i)

/-- Function `add_object` (lines 104-111): the calls it makes, in order. -/
def add_object (name : String) (transformation : Transformation) : List Command :=
  [Command.AttributeBegin,
   Command.Translate transformation.Translate.x transformation.Translate.y
     transformation.Translate.z,
   Command.Scale transformation.Scale.x transformation.Scale.y transformation.Scale.z,
   Command.Rotate transformation.Deg transformation.Rotate.x transformation.Rotate.y
     transformation.Rotate.z,
   Command.ObjectInstance name,
   Command.AttributeEnd]

/-! ## Procedural placement loop of the driver -/

/-- Compound assignment `v *= f` of `pbrt::Vector3f`: every component is
multiplied by the scalar. -/
def Vector3f.mulAssign (v : Vector3f ℚ) (f : ℚ) : Vector3f ℚ :=
  ⟨v.x * f, v.y * f, v.z * f⟩

/-- Loop of `main` (lines 242-248) from counter value `i` on, with the
current `pineTransform` and `ypush`: instance the template, then shrink the
scale by `0.8`, shrink `ypush` by `0.70`, add `ypush` to `Translate.y` and
subtract `8` from `Translate.x`.  Floats are exact rationals here. -/
def pine_loop (name : String) (pineTree_nr : Nat) (i : Nat)
    (pineTransform : Transformation) (ypush : ℚ) : List Command :=
  if i < pineTree_nr then
    let scale := pineTransform.Scale.mulAssign 0.8
    let ypush1 := ypush * 0.70
    let translate : Vector3f ℚ :=
      ⟨pineTransform.Translate.x - 8, pineTransform.Translate.y + ypush1,
       pineTransform.Translate.z⟩
    add_object name pineTransform ++
      pine_loop name pineTree_nr (i + 1)
        { pineTransform with Scale := scale, Translate := translate } ypush1
  else []
termination_by pineTree_nr - i
decreasing_by omega

/-- Lines 237-248 of `main` for a given template name, repetition count and
initial transform: `ypush` starts at `40` and the counter at `0`. -/
def pine_trees (name : String) (pineTree_nr : Nat) (pineTransform : Transformation) :
    List Command :=
  pine_loop name pineTree_nr 0 pineTransform 40

/-- The values `main` runs the placement loop with: `PINE_TREE`, ten
repetitions, `Transformation pineTransform{{-20, -120, 0}, {0.8, 0.8, 0.8}}`. -/
def main_pine_trees : List Command :=
  pine_trees "pineTree" 10 { Translate := ⟨-20, -120, 0⟩, Scale := ⟨0.8, 0.8, 0.8⟩ }

/-- Transform the placement loop reaches after `i` more passes when it is at
transform `t0` with step size `ypush`. -/
def placementFrom (t0 : Transformation) (ypush : ℚ) (i : Nat) : Transformation :=
  { Translate := ⟨t0.Translate.x - 8 * i,
                  t0.Translate.y + ∑ k in Finset.Icc 1 i, ypush * (0.7 : ℚ) ^ k,
                  t0.Translate.z⟩
    Scale := ⟨t0.Scale.x * (0.8 : ℚ) ^ i, t0.Scale.y * (0.8 : ℚ) ^ i,
              t0.Scale.z * (0.8 : ℚ) ^ i⟩
    Deg := t0.Deg
    Rotate := t0.Rotate }

/-- Transform the `i`-th pass of the placement loop instances the template
with, in closed form. -/
def placementAt (t0 : Transformation) (i : Nat) : Transformation :=
  { Translate := ⟨t0.Translate.x - 8 * i,
                  t0.Translate.y + ∑ k in Finset.Icc 1 i, 40 * (0.7 : ℚ) ^ k,
                  t0.Translate.z⟩
    Scale := ⟨t0.Scale.x * (0.8 : ℚ) ^ i, t0.Scale.y * (0.8 : ℚ) ^ i,
              t0.Scale.z * (0.8 : ℚ) ^ i⟩
    Deg := t0.Deg
    Rotate := t0.Rotate }

/-- Arguments of the `Scale` commands of a command sequence, in order. -/
def scalesOf (cmds : List Command) : List (ℚ × ℚ × ℚ) :=
  cmds.filterMap fun c =>
    match c with
    | Command.Scale x y z => some (x, y, z)
    | _ => none

/-- Arguments of the `Translate` commands of a command sequence, in order. -/
def translatesOf (cmds : List Command) : List (ℚ × ℚ × ℚ) :=
  cmds.filterMap fun c =>
    match c with
    | Command.Translate x y z => some (x, y, z)
    | _ => none

/-! ## Scope discipline of a command sequence -/

/-- The two scope kinds of the backend. -/
inductive Scope where
  | attribute
  | object
  deriving DecidableEq, Repr

/-- Effect of one command on the stack of open scopes; `none` when an End
command does not close the innermost open scope. -/
def scopeStep (stack : List Scope) : Command → Option (List Scope)
  | Command.AttributeBegin => some (Scope.attribute :: stack)
  | Command.ObjectBegin _ => some (Scope.object :: stack)
  | Command.AttributeEnd =>
    match stack with
    | Scope.attribute :: rest => some rest
    | _ => none
  | Command.ObjectEnd =>
    match stack with
    | Scope.object :: rest => some rest
    | _ => none
  | _ => some stack

/-- Run a command sequence from a given stack of open scopes. -/
def scopeRun : List Scope → List Command → Option (List Scope)
  | stack, [] => some stack
  | stack, c :: cs =>
    match scopeStep stack c with
    | some stack1 => scopeRun stack1 cs
    | none => none

/-- A command sequence is scope-balanced when every End closes the innermost
open scope of its kind and no scope is left open at the end. -/
def scopeBalanced (cmds : List Command) : Bool :=
  scopeRun [] cmds == some []

/-- A command that binds the entry of an attribute block: a named material
or a parsed file. -/
def Command.isBinding : Command → Bool
  | Command.NamedMaterial _ => true
  | Command.ParseFile _ => true
  | _ => false

/-! ## Rotation matrix to axis and angle -/

/-- Result record `ret` of `matrixToAxisAngle`. -/
structure ret where
  deg : ℝ
  vec : Vector3f ℝ

/-- Quaternion component `qw` (line 120). -/
noncomputable def quatW (m : Fin 4 → Fin 4 → ℝ) : ℝ :=
  Real.sqrt (max 0 (1 + m 0 0 + m 1 1 + m 2 2)) / 2

/-- Quaternion component `qx` (line 121). -/
noncomputable def quatX (m : Fin 4 → Fin 4 → ℝ) : ℝ :=
  Real.sqrt (max 0 (1 + m 0 0 - m 1 1 - m 2 2)) / 2

/-- Quaternion component `qy` (line 122). -/
noncomputable def quatY (m : Fin 4 → Fin 4 → ℝ) : ℝ :=
  Real.sqrt (max 0 (1 - m 0 0 + m 1 1 - m 2 2)) / 2

/-- Quaternion component `qz` (line 123). -/
noncomputable def quatZ (m : Fin 4 → Fin 4 → ℝ) : ℝ :=
  Real.sqrt (max 0 (1 - m 0 0 - m 1 1 + m 2 2)) / 2

/-- Divisor `sqrt(1 - qw * qw)` of the three axis components (lines 127-129). -/
noncomputable def axisDivisor (m : Fin 4 → Fin 4 → ℝ) : ℝ :=
  Real.sqrt (1 - quatW m * quatW m)

/-- Function `matrixToAxisAngle` (lines 113-132) in exact real arithmetic:
rounding of the float operations is not modelled.  The division is the
division of `ℝ`; where the divisor is zero the source divides a float by
zero, and the value this definition takes there carries no meaning. -/
noncomputable def matrixToAxisAngle (m : Fin 4 → Fin 4 → ℝ) : ret :=
  let qw := Real.sqrt (max 0 (1 + m 0 0 + m 1 1 + m 2 2)) / 2
  let qx := Real.sqrt (max 0 (1 + m 0 0 - m 1 1 - m 2 2)) / 2
  let qy := Real.sqrt (max 0 (1 - m 0 0 + m 1 1 - m 2 2)) / 2
  let qz := Real.sqrt (max 0 (1 - m 0 0 - m 1 1 + m 2 2)) / 2
  let deg := 2 * Real.arccos qw * (180 / Real.pi)
  let x := qx / Real.sqrt (1 - qw * qw)
  let y := qy / Real.sqrt (1 - qw * qw)
  let z := qz / Real.sqrt (1 - qw * qw)
  ⟨deg, ⟨x, y, z⟩⟩

/-- Arguments of the seven `sqrt` calls of `matrixToAxisAngle`, in source
order: the four clamped ones of lines 120-123, then `1 - qw * qw` three times
(lines 127-129). -/
noncomputable def sqrtArguments (m : Fin 4 → Fin 4 → ℝ) : List ℝ :=
  [max 0 (1 + m 0 0 + m 1 1 + m 2 2),
   max 0 (1 + m 0 0 - m 1 1 - m 2 2),
   max 0 (1 - m 0 0 + m 1 1 - m 2 2),
   max 0 (1 - m 0 0 - m 1 1 + m 2 2),
   1 - quatW m * quatW m,
   1 - quatW m * quatW m,
   1 - quatW m * quatW m]

/-- Trace of the upper-left 3×3 block. -/
def trace3 (m : Fin 4 → Fin 4 → ℝ) : ℝ :=
  m 0 0 + m 1 1 + m 2 2

/-- Upper-left 3×3 block of a 4×4 array, as a matrix. -/
def rotationBlock (m : Fin 4 → Fin 4 → ℝ) : Matrix (Fin 3) (Fin 3) ℝ :=
  fun i j => m i.castSucc j.castSucc

/-- The 3×3 block is a proper rotation: orthonormal with determinant one. -/
def IsRotation (m : Fin 4 → Fin 4 → ℝ) : Prop :=
  rotationBlock m * (rotationBlock m).transpose = 1 ∧ (rotationBlock m).det = 1

/-- Modelled from the spec: `axisAngleToMatrix`, the conversion from an angle
in degrees and a unit axis to the 4×4 rotation matrix, is not part of
`main.cpp`; this is the rotation about `axis` by `deg` degrees (Rodrigues). -/
noncomputable def axisAngleToMatrix (deg : ℝ) (axis : Vector3f ℝ) : Fin 4 → Fin 4 → ℝ :=
  let c := Real.cos (deg * Real.pi / 180)
  let s := Real.sin (deg * Real.pi / 180)
  ![![c + axis.x * axis.x * (1 - c), axis.x * axis.y * (1 - c) - axis.z * s,
      axis.x * axis.z * (1 - c) + axis.y * s, 0],
    ![axis.y * axis.x * (1 - c) + axis.z * s, c + axis.y * axis.y * (1 - c),
      axis.y * axis.z * (1 - c) - axis.x * s, 0],
    ![axis.z * axis.x * (1 - c) - axis.y * s, axis.z * axis.y * (1 - c) + axis.x * s,
      c + axis.z * axis.z * (1 - c), 0],
    ![0, 0, 0, 1]]

/-- The 4×4 identity matrix. -/
def identity4 : Fin 4 → Fin 4 → ℝ :=
  ![![1, 0, 0, 0], ![0, 1, 0, 0], ![0, 0, 1, 0], ![0, 0, 0, 1]]

/-- Rotation by 180 degrees about the z axis. -/
def halfTurnZ : Fin 4 → Fin 4 → ℝ :=
  ![![-1, 0, 0, 0], ![0, -1, 0, 0], ![0, 0, 1, 0], ![0, 0, 0, 1]]

/-- Rotation by 90 degrees about the axis `(0, 0, -1)`. -/
def quarterTurnNegZ : Fin 4 → Fin 4 → ℝ :=
  ![![0, 1, 0, 0], ![-1, 0, 0, 0], ![0, 0, 1, 0], ![0, 0, 0, 1]]

/-! ## Template instancing (`add_object`) -/

/-- C1: for every template name and every transformation, `add_object` emits
exactly the six commands AttributeBegin, Translate, Scale, Rotate,
ObjectInstance, AttributeEnd, in this order, with the transformation's fields
as arguments; for name "T" and Translate = (0,10,0), the other fields at their
defaults, the sequence is scope-open, translate(0,10,0), scale(1,1,1),
rotate(0,1,0,0), instance("T"), scope-close. -/
theorem add_object_emits_six (name : String) (t : Transformation) :
    add_object name t =
      [Command.AttributeBegin,
       Command.Translate t.Translate.x t.Translate.y t.Translate.z,
       Command.Scale t.Scale.x t.Scale.y t.Scale.z,
       Command.Rotate t.Deg t.Rotate.x t.Rotate.y t.Rotate.z,
       Command.ObjectInstance name,
       Command.AttributeEnd]
    ∧ (add_object name t).length = 6
    ∧ add_object "T" { Translate := ⟨0, 10, 0⟩ } =
      [Command.AttributeBegin, Command.Translate 0 10 0, Command.Scale 1 1 1,
       Command.Rotate 0 1 0 0, Command.ObjectInstance "T", Command.AttributeEnd] :=
  ⟨rfl, rfl, rfl⟩

/-! ## Template definition (`create_object`, `add_attribute`) -/

/-- Shape of the block `add_attribute` emits. -/
theorem add_attribute_eq (t : Transformation) (material inc : String) :
    add_attribute t material inc =
      [Command.AttributeBegin,
       Command.Translate t.Translate.x t.Translate.y t.Translate.z,
       Command.Scale t.Scale.x t.Scale.y t.Scale.z,
       Command.Rotate t.Deg t.Rotate.x t.Rotate.y t.Rotate.z,
       (if material = ".pbrt" then Command.ParseFile material
        else Command.NamedMaterial material),
       Command.ParseFile inc,
       Command.AttributeEnd] := by
  unfold add_attribute
  split <;> rfl

theorem add_attribute_count_begin (t : Transformation) (material inc : String) :
    (add_attribute t material inc).count Command.AttributeBegin = 1 := by
  rw [add_attribute_eq]
  split <;> simp [List.count_cons]

theorem add_attribute_count_end (t : Transformation) (material inc : String) :
    (add_attribute t material inc).count Command.AttributeEnd = 1 := by
  rw [add_attribute_eq]
  split <;> simp [List.count_cons]

/-- With enough transformations and includes the loop of `create_object`
returns, having emitted one `add_attribute` block per remaining index. -/
theorem create_object_loop_eq (materials : List String)
    (transformations : List Transformation) (includes : List String)
    (ht : materials.length ≤ transformations.length)
    (hi : materials.length ≤ includes.length) :
    ∀ (d i : Nat), materials.length - i = d →
      create_object_loop materials transformations includes i =
        ((List.zipWith3 add_attribute (transformations.drop i) (materials.drop i)
            (includes.drop i)).flatten, Status.returned) := by
  intro d
  induction d with
  | zero =>
    intro i hd
    have hle : materials.length ≤ i := by omega
    rw [create_object_loop]
    simp [Nat.not_lt.mpr hle, List.drop_eq_nil_of_le hle, List.zipWith3]
  | succ d ih =>
    intro i hd
    have hlt : i < materials.length := by omega
    have hlt1 : i < transformations.length := by omega
    have hlt2 : i < includes.length := by omega
    rw [create_object_loop]
    simp only [hlt, dite_true, List.getElem?_eq_getElem hlt1, List.getElem?_eq_getElem hlt2]
    rw [ih (i + 1) (by omega)]
    rw [List.drop_eq_getElem_cons hlt, List.drop_eq_getElem_cons hlt1,
      List.drop_eq_getElem_cons hlt2]
    simp [List.zipWith3]

theorem zipWith3_length_eq {α β γ δ : Type} (f : α → β → γ → δ) :
    ∀ (as : List α) (bs : List β) (cs : List γ),
      bs.length = as.length → cs.length = as.length →
      (List.zipWith3 f as bs cs).length = as.length
  | [], [], [], _, _ => rfl
  | a :: as, b :: bs, c :: cs, hb, hc => by
    have hb1 : bs.length = as.length := by simpa using hb
    have hc1 : cs.length = as.length := by simpa using hc
    simp [List.zipWith3, zipWith3_length_eq f as bs cs hb1 hc1]
  | [], _ :: _, _, hb, _ => by simp at hb
  | [], [], _ :: _, _, hc => by simp at hc
  | _ :: _, [], _, hb, _ => by simp at hb
  | _ :: _, _ :: _, [], _, hc => by simp at hc

theorem zipWith3_getElem? {α β γ δ : Type} (f : α → β → γ → δ) :
    ∀ (as : List α) (bs : List β) (cs : List γ) (i : Nat)
      (ha : i < as.length) (hb : i < bs.length) (hc : i < cs.length),
      (List.zipWith3 f as bs cs)[i]? = some (f as[i] bs[i] cs[i])
  | a :: as, b :: bs, c :: cs, 0, _, _, _ => by simp [List.zipWith3]
  | a :: as, b :: bs, c :: cs, i + 1, ha, hb, hc => by
    have ha1 : i < as.length := by simpa using ha
    have hb1 : i < bs.length := by simpa using hb
    have hc1 : i < cs.length := by simpa using hc
    simpa [List.zipWith3] using zipWith3_getElem? f as bs cs i ha1 hb1 hc1
  | [], _, _, _, ha, _, _ => by simp at ha
  | _ :: _, [], _, _, _, hb, _ => by simp at hb
  | _ :: _, _ :: _, [], _, _, _, hc => by simp at hc

theorem blocks_count_begin :
    ∀ (ts : List Transformation) (ms : List String) (is : List String),
      ms.length = ts.length → is.length = ts.length →
      (List.zipWith3 add_attribute ts ms is).flatten.count Command.AttributeBegin
        = ts.length
  | [], [], [], _, _ => rfl
  | t :: ts, m :: ms, c :: is, hb, hc => by
    have hb1 : ms.length = ts.length := by simpa using hb
    have hc1 : is.length = ts.length := by simpa using hc
    simp only [List.zipWith3, List.flatten_cons, List.count_append,
      add_attribute_count_begin, blocks_count_begin ts ms is hb1 hc1, List.length_cons]
    omega
  | [], _ :: _, _, hb, _ => by simp at hb
  | [], [], _ :: _, _, hc => by simp at hc
  | _ :: _, [], _, hb, _ => by simp at hb
  | _ :: _, _ :: _, [], _, hc => by simp at hc

theorem blocks_count_end :
    ∀ (ts : List Transformation) (ms : List String) (is : List String),
      ms.length = ts.length → is.length = ts.length →
      (List.zipWith3 add_attribute ts ms is).flatten.count Command.AttributeEnd
        = ts.length
  | [], [], [], _, _ => rfl
  | t :: ts, m :: ms, c :: is, hb, hc => by
    have hb1 : ms.length = ts.length := by simpa using hb
    have hc1 : is.length = ts.length := by simpa using hc
    simp only [List.zipWith3, List.flatten_cons, List.count_append,
      add_attribute_count_end, blocks_count_end ts ms is hb1 hc1, List.length_cons]
    omega
  | [], _ :: _, _, hb, _ => by simp at hb
  | [], [], _ :: _, _, hc => by simp at hc
  | _ :: _, [], _, hb, _ => by simp at hb
  | _ :: _, _ :: _, [], _, hc => by simp at hc

/-- When `materials` is no longer than the two other lists, `create_object`
returns after `ObjectBegin`, one block per material, and `ObjectEnd`. -/
theorem create_object_eq (name : String) (materials : List String)
    (transformations : List Transformation) (includes : List String)
    (ht : materials.length = transformations.length)
    (hi : materials.length = includes.length) :
    create_object name materials transformations includes =
      (Command.ObjectBegin name ::
          (List.zipWith3 add_attribute transformations materials includes).flatten
        ++ [Command.ObjectEnd], Status.returned) := by
  have hloop := create_object_loop_eq materials transformations includes
    (le_of_eq ht) (le_of_eq hi) (materials.length - 0) 0 rfl
  simp only [List.drop_zero] at hloop
  simp [create_object, lengthCheckFails, ht, hloop]

/-- C3: for three lists of the same length n, `create_object` returns after
emitting ObjectBegin(name), then n blocks in list order, the i-th being the
commands of add_attribute(transformations[i], materials[i], includes[i]) (so
it starts with AttributeBegin, Translate, Scale, Rotate of transformations[i]
and ends with AttributeEnd), then ObjectEnd; the sequence holds exactly n
AttributeBegin and n AttributeEnd commands. -/
theorem create_object_equal_lengths (name : String) (materials : List String)
    (transformations : List Transformation) (includes : List String)
    (ht : transformations.length = materials.length)
    (hi : includes.length = materials.length) :
    create_object name materials transformations includes =
      (Command.ObjectBegin name ::
          (List.zipWith3 add_attribute transformations materials includes).flatten
        ++ [Command.ObjectEnd], Status.returned)
    ∧ (List.zipWith3 add_attribute transformations materials includes).length
        = materials.length
    ∧ (∀ (i : Nat) (hm : i < materials.length),
        ∃ (h1 : i < transformations.length) (h2 : i < includes.length)
          (mid : List Command),
          (List.zipWith3 add_attribute transformations materials includes)[i]?
            = some (add_attribute transformations[i] materials[i] includes[i])
          ∧ add_attribute transformations[i] materials[i] includes[i] =
            [Command.AttributeBegin,
             Command.Translate transformations[i].Translate.x
               transformations[i].Translate.y transformations[i].Translate.z,
             Command.Scale transformations[i].Scale.x transformations[i].Scale.y
               transformations[i].Scale.z,
             Command.Rotate transformations[i].Deg transformations[i].Rotate.x
               transformations[i].Rotate.y transformations[i].Rotate.z]
            ++ mid ++ [Command.AttributeEnd])
    ∧ (create_object name materials transformations includes).1.count
        Command.AttributeBegin = materials.length
    ∧ (create_object name materials transformations includes).1.count
        Command.AttributeEnd = materials.length := by
  have heq := create_object_eq name materials transformations includes ht.symm hi.symm
  refine ⟨heq, ?_, ?_, ?_, ?_⟩
  · rw [zipWith3_length_eq add_attribute transformations materials includes
      (by omega) (by omega)]
    exact ht
  · intro i hm
    have h1 : i < transformations.length := by omega
    have h2 : i < includes.length := by omega
    refine ⟨h1, h2, ?_⟩
    refine ⟨[if materials[i] = ".pbrt" then Command.ParseFile materials[i]
      else Command.NamedMaterial materials[i], Command.ParseFile includes[i]],
      zipWith3_getElem? add_attribute transformations materials includes i h1 hm h2, ?_⟩
    rw [add_attribute_eq]
    rfl
  · rw [heq]
    simp only [List.count_cons, List.count_append, List.count_nil,
      blocks_count_begin transformations materials includes (by omega) (by omega)]
    simp [ht]
  · rw [heq]
    simp only [List.count_cons, List.count_append, List.count_nil,
      blocks_count_end transformations materials includes (by omega) (by omega)]
    simp [ht]

theorem scopeRun_append (a b : List Command) :
    ∀ stack : List Scope,
      scopeRun stack (a ++ b) = (scopeRun stack a).bind (fun s => scopeRun s b) := by
  induction a with
  | nil => intro stack; rfl
  | cons c a ih =>
    intro stack
    simp only [List.cons_append, scopeRun]
    cases scopeStep stack c with
    | none => rfl
    | some s => exact ih s

theorem scopeRun_add_attribute (stack : List Scope) (t : Transformation)
    (material inc : String) :
    scopeRun stack (add_attribute t material inc) = some stack := by
  rw [add_attribute_eq]
  split <;> rfl

theorem scopeRun_blocks (stack : List Scope) :
    ∀ (ts : List Transformation) (ms : List String) (is : List String),
      scopeRun stack (List.zipWith3 add_attribute ts ms is).flatten = some stack
  | [], _, _ => rfl
  | _ :: _, [], _ => rfl
  | _ :: _, _ :: _, [] => rfl
  | t :: ts, m :: ms, c :: is => by
    simp only [List.zipWith3, List.flatten_cons]
    rw [scopeRun_append, scopeRun_add_attribute]
    exact scopeRun_blocks stack ts ms is

/-- For three lists of the same length the sequence `create_object` emits is
scope-balanced. -/
theorem create_object_balanced_of_equal_lengths (name : String) (materials : List String)
    (transformations : List Transformation) (includes : List String)
    (ht : transformations.length = materials.length)
    (hi : includes.length = materials.length) :
    scopeBalanced (create_object name materials transformations includes).1 = true := by
  rw [create_object_eq name materials transformations includes ht.symm hi.symm]
  have hrun : scopeRun [] (Command.ObjectBegin name ::
      ((List.zipWith3 add_attribute transformations materials includes).flatten
        ++ [Command.ObjectEnd])) = some [] := by
    show scopeRun [Scope.object]
      ((List.zipWith3 add_attribute transformations materials includes).flatten
        ++ [Command.ObjectEnd]) = some []
    rw [scopeRun_append, scopeRun_blocks]
    rfl
  simp only [scopeBalanced, List.cons_append] at hrun ⊢
  rw [hrun]
  rfl

/-- Whenever the length check fails, `create_object` has emitted ObjectBegin
and nothing else when it returns. -/
theorem create_object_early_return (name : String) (materials : List String)
    (transformations : List Transformation) (includes : List String)
    (h : lengthCheckFails materials transformations includes = true) :
    create_object name materials transformations includes
      = ([Command.ObjectBegin name], Status.returned) := by
  simp [create_object, h]

/-- Witness of C3 on the two-entry maple tree template of `main`. -/
theorem create_object_equal_lengths_witness :
    create_object "mapleTree" ["Leaves-autumn", "Bark"]
        [{ Translate := ⟨0, 0, -2⟩, Scale := ⟨5, 5, 5⟩, Deg := 90 },
         { Translate := ⟨0, 0, -2⟩, Scale := ⟨5, 5, 5⟩, Deg := 90 }]
        ["./treegeometry/mapleTree-leaves.pbrt", "./treegeometry/mapleTree-trunk.pbrt"]
      = ([Command.ObjectBegin "mapleTree",
          Command.AttributeBegin, Command.Translate 0 0 (-2), Command.Scale 5 5 5,
          Command.Rotate 90 1 0 0, Command.NamedMaterial "Leaves-autumn",
          Command.ParseFile "./treegeometry/mapleTree-leaves.pbrt", Command.AttributeEnd,
          Command.AttributeBegin, Command.Translate 0 0 (-2), Command.Scale 5 5 5,
          Command.Rotate 90 1 0 0, Command.NamedMaterial "Bark",
          Command.ParseFile "./treegeometry/mapleTree-trunk.pbrt", Command.AttributeEnd,
          Command.ObjectEnd], Status.returned)
    ∧ (create_object "mapleTree" ["Leaves-autumn", "Bark"]
        [{ Translate := ⟨0, 0, -2⟩, Scale := ⟨5, 5, 5⟩, Deg := 90 },
         { Translate := ⟨0, 0, -2⟩, Scale := ⟨5, 5, 5⟩, Deg := 90 }]
        ["./treegeometry/mapleTree-leaves.pbrt",
         "./treegeometry/mapleTree-trunk.pbrt"]).1.count Command.AttributeBegin = 2
    ∧ (create_object "mapleTree" ["Leaves-autumn", "Bark"]
        [{ Translate := ⟨0, 0, -2⟩, Scale := ⟨5, 5, 5⟩, Deg := 90 },
         { Translate := ⟨0, 0, -2⟩, Scale := ⟨5, 5, 5⟩, Deg := 90 }]
        ["./treegeometry/mapleTree-leaves.pbrt",
         "./treegeometry/mapleTree-trunk.pbrt"]).1.count Command.AttributeEnd = 2 := by
  have h := create_object_equal_lengths "mapleTree" ["Leaves-autumn", "Bark"]
    [{ Translate := ⟨0, 0, -2⟩, Scale := ⟨5, 5, 5⟩, Deg := 90 },
     { Translate := ⟨0, 0, -2⟩, Scale := ⟨5, 5, 5⟩, Deg := 90 }]
    ["./treegeometry/mapleTree-leaves.pbrt", "./treegeometry/mapleTree-trunk.pbrt"]
    rfl rfl
  refine ⟨?_, h.2.2.2.1, h.2.2.2.2⟩
  rw [h.1]
  simp [List.zipWith3, add_attribute]

/-- C2: on lists of lengths 2/2/1 (materials, transformations, includes)
`create_object` does emit backend commands: the length check lets the call
through, ObjectBegin and the whole first block are emitted, and the second
pass of the loop reads `includes[1]` past the end of the vector. -/
theorem create_object_lengths_2_2_1_emits :
    create_object "mapleTree" ["Leaves-autumn", "Bark"]
        [{ Translate := ⟨0, 0, -2⟩, Scale := ⟨5, 5, 5⟩, Deg := 90 },
         { Translate := ⟨0, 0, -2⟩, Scale := ⟨5, 5, 5⟩, Deg := 90 }]
        ["./treegeometry/mapleTree-leaves.pbrt"]
      = ([Command.ObjectBegin "mapleTree",
          Command.AttributeBegin, Command.Translate 0 0 (-2), Command.Scale 5 5 5,
          Command.Rotate 90 1 0 0, Command.NamedMaterial "Leaves-autumn",
          Command.ParseFile "./treegeometry/mapleTree-leaves.pbrt", Command.AttributeEnd],
         Status.outOfRange 1)
    ∧ (create_object "mapleTree" ["Leaves-autumn", "Bark"]
        [{ Translate := ⟨0, 0, -2⟩, Scale := ⟨5, 5, 5⟩, Deg := 90 },
         { Translate := ⟨0, 0, -2⟩, Scale := ⟨5, 5, 5⟩, Deg := 90 }]
        ["./treegeometry/mapleTree-leaves.pbrt"]).1 ≠ [] := by
  have h : create_object "mapleTree" ["Leaves-autumn", "Bark"]
        [{ Translate := ⟨0, 0, -2⟩, Scale := ⟨5, 5, 5⟩, Deg := 90 },
         { Translate := ⟨0, 0, -2⟩, Scale := ⟨5, 5, 5⟩, Deg := 90 }]
        ["./treegeometry/mapleTree-leaves.pbrt"]
      = ([Command.ObjectBegin "mapleTree",
          Command.AttributeBegin, Command.Translate 0 0 (-2), Command.Scale 5 5 5,
          Command.Rotate 90 1 0 0, Command.NamedMaterial "Leaves-autumn",
          Command.ParseFile "./treegeometry/mapleTree-leaves.pbrt", Command.AttributeEnd],
         Status.outOfRange 1) := by
    simp [create_object, create_object_loop, lengthCheckFails, add_attribute]
  exact ⟨h, by rw [h]; simp⟩

/-- C7: on lists of lengths 2/1/1 (materials, transformations, includes)
`create_object` takes the early return after ObjectBegin: the emitted sequence
is the single command ObjectBegin, whose scope is never closed, so the
sequence is not scope-balanced. -/
theorem create_object_early_return_unbalanced :
    create_object "mapleTree" ["Leaves-autumn", "Bark"]
        [{ Translate := ⟨0, 0, -2⟩, Scale := ⟨5, 5, 5⟩, Deg := 90 }]
        ["./treegeometry/mapleTree-leaves.pbrt"]
      = ([Command.ObjectBegin "mapleTree"], Status.returned)
    ∧ scopeRun [] (create_object "mapleTree" ["Leaves-autumn", "Bark"]
        [{ Translate := ⟨0, 0, -2⟩, Scale := ⟨5, 5, 5⟩, Deg := 90 }]
        ["./treegeometry/mapleTree-leaves.pbrt"]).1 = some [Scope.object]
    ∧ scopeBalanced (create_object "mapleTree" ["Leaves-autumn", "Bark"]
        [{ Translate := ⟨0, 0, -2⟩, Scale := ⟨5, 5, 5⟩, Deg := 90 }]
        ["./treegeometry/mapleTree-leaves.pbrt"]).1 = false := by
  have h : create_object "mapleTree" ["Leaves-autumn", "Bark"]
        [{ Translate := ⟨0, 0, -2⟩, Scale := ⟨5, 5, 5⟩, Deg := 90 }]
        ["./treegeometry/mapleTree-leaves.pbrt"]
      = ([Command.ObjectBegin "mapleTree"], Status.returned) := by
    simp [create_object, lengthCheckFails]
  refine ⟨h, ?_, ?_⟩
  · rw [h]; rfl
  · rw [h]; rfl

/-- C10: on lists of lengths 2/2/1 (materials, transformations, includes) the
length check of `create_object` does not take the early return, the loop
reaches index 1 < materials.size(), and `includes[1]` is past the end of
`includes`: the run ends in an out-of-range read at index 1. -/
theorem create_object_reads_out_of_range :
    lengthCheckFails ["Leaves-autumn", "Bark"]
        [{ Translate := ⟨0, 0, -2⟩, Scale := ⟨5, 5, 5⟩, Deg := 90 },
         { Translate := ⟨0, 0, -2⟩, Scale := ⟨5, 5, 5⟩, Deg := 90 }]
        ["./treegeometry/mapleTree-leaves.pbrt"] = false
    ∧ 1 < ["Leaves-autumn", "Bark"].length
    ∧ ["./treegeometry/mapleTree-leaves.pbrt"][1]? = none
    ∧ (create_object "mapleTree" ["Leaves-autumn", "Bark"]
        [{ Translate := ⟨0, 0, -2⟩, Scale := ⟨5, 5, 5⟩, Deg := 90 },
         { Translate := ⟨0, 0, -2⟩, Scale := ⟨5, 5, 5⟩, Deg := 90 }]
        ["./treegeometry/mapleTree-leaves.pbrt"]).2 = Status.outOfRange 1 := by
  refine ⟨rfl, by decide, rfl, ?_⟩
  simp [create_object, create_object_loop, lengthCheckFails]

/-- C8 as stated fails: for a named material and an include path the block
of `add_attribute` has two binding commands between Rotate and AttributeEnd,
a NamedMaterial and a ParseFile, so it is not a block with a single one. -/
theorem add_attribute_binds_both :
    add_attribute { Translate := ⟨0, 0, -2⟩, Scale := ⟨5, 5, 5⟩, Deg := 90 } "Bark"
        "./treegeometry/mapleTree-trunk.pbrt"
      = [Command.AttributeBegin, Command.Translate 0 0 (-2), Command.Scale 5 5 5,
         Command.Rotate 90 1 0 0, Command.NamedMaterial "Bark",
         Command.ParseFile "./treegeometry/mapleTree-trunk.pbrt", Command.AttributeEnd]
    ∧ ((add_attribute { Translate := ⟨0, 0, -2⟩, Scale := ⟨5, 5, 5⟩, Deg := 90 } "Bark"
        "./treegeometry/mapleTree-trunk.pbrt").filter Command.isBinding).length = 2
    ∧ Command.NamedMaterial "Bark" ∈
        add_attribute { Translate := ⟨0, 0, -2⟩, Scale := ⟨5, 5, 5⟩, Deg := 90 } "Bark"
          "./treegeometry/mapleTree-trunk.pbrt"
    ∧ Command.ParseFile "./treegeometry/mapleTree-trunk.pbrt" ∈
        add_attribute { Translate := ⟨0, 0, -2⟩, Scale := ⟨5, 5, 5⟩, Deg := 90 } "Bark"
          "./treegeometry/mapleTree-trunk.pbrt" := by
  have h : add_attribute { Translate := ⟨0, 0, -2⟩, Scale := ⟨5, 5, 5⟩, Deg := 90 } "Bark"
        "./treegeometry/mapleTree-trunk.pbrt"
      = [Command.AttributeBegin, Command.Translate 0 0 (-2), Command.Scale 5 5 5,
         Command.Rotate 90 1 0 0, Command.NamedMaterial "Bark",
         Command.ParseFile "./treegeometry/mapleTree-trunk.pbrt", Command.AttributeEnd] := by
    simp [add_attribute]
  refine ⟨h, ?_, ?_, ?_⟩
  · rw [h]; rfl
  · rw [h]; simp
  · rw [h]; simp

/-- C8 amended: between Rotate and AttributeEnd the block of `add_attribute`
holds exactly two commands: first exactly one of ParseFile(material), when
the material string is ".pbrt", or NamedMaterial(material), otherwise; then
always ParseFile(include). -/
theorem add_attribute_binding (t : Transformation) (material inc : String) :
    (∃ first : Command,
      ((material = ".pbrt" ∧ first = Command.ParseFile material)
        ∨ (material ≠ ".pbrt" ∧ first = Command.NamedMaterial material))
      ∧ add_attribute t material inc =
        [Command.AttributeBegin,
         Command.Translate t.Translate.x t.Translate.y t.Translate.z,
         Command.Scale t.Scale.x t.Scale.y t.Scale.z,
         Command.Rotate t.Deg t.Rotate.x t.Rotate.y t.Rotate.z,
         first,
         Command.ParseFile inc,
         Command.AttributeEnd])
    ∧ ((add_attribute t material inc).filter Command.isBinding).length = 2 := by
  by_cases hm : material = ".pbrt"
  · refine ⟨⟨Command.ParseFile material, Or.inl ⟨hm, rfl⟩, ?_⟩, ?_⟩
    · rw [add_attribute_eq, if_pos hm]
    · rw [add_attribute_eq, if_pos hm]; rfl
  · refine ⟨⟨Command.NamedMaterial material, Or.inr ⟨hm, rfl⟩, ?_⟩, ?_⟩
    · rw [add_attribute_eq, if_neg hm]
    · rw [add_attribute_eq, if_neg hm]; rfl

/-! ## Procedural placement -/

theorem sum_Icc_shift (y c : ℚ) (k : Nat) :
    ∑ j in Finset.Icc 1 (k + 1), y * c ^ j
      = y * c + ∑ j in Finset.Icc 1 k, (y * c) * c ^ j := by
  induction k with
  | zero => simp
  | succ k ih =>
    rw [Finset.sum_Icc_succ_top (by omega), ih, Finset.sum_Icc_succ_top (by omega)]
    ring

theorem placementFrom_zero (t : Transformation) (y : ℚ) : placementFrom t y 0 = t := by
  cases t with
  | mk tr sc dg ro =>
    cases tr; cases sc
    simp [placementFrom]

theorem placementFrom_succ (t : Transformation) (y : ℚ) (k : Nat) :
    placementFrom t y (k + 1) =
      placementFrom
        { t with
          Scale := t.Scale.mulAssign 0.8
          Translate := ⟨t.Translate.x - 8, t.Translate.y + y * 0.70, t.Translate.z⟩ }
        (y * 0.70) k := by
  have hs := sum_Icc_shift y 0.7 k
  simp only [placementFrom, Vector3f.mulAssign, Transformation.mk.injEq, Vector3f.mk.injEq,
    and_true, true_and]
  refine ⟨⟨?_, ?_⟩, ?_, ?_, ?_⟩
  · push_cast; ring
  · rw [hs]; norm_num; ring
  · ring
  · ring
  · ring

/-- Closed form of the placement loop from any counter value and state. -/
theorem pine_loop_eq (name : String) (n : Nat) :
    ∀ (d i : Nat) (t : Transformation) (y : ℚ), n - i = d →
      pine_loop name n i t y =
        (List.range d).flatMap (fun k => add_object name (placementFrom t y k)) := by
  intro d
  induction d with
  | zero =>
    intro i t y hd
    rw [pine_loop]
    simp [Nat.not_lt.mpr (show n ≤ i by omega)]
  | succ d ih =>
    intro i t y hd
    rw [pine_loop]
    simp only [show i < n by omega, if_true]
    rw [ih (i + 1) _ _ (by omega), List.range_succ_eq_map, List.flatMap_cons,
      placementFrom_zero, List.flatMap_map]
    congr 1
    apply List.flatMap_congr
    intro k _
    simp only [Function.comp, Nat.succ_eq_add_one]
    rw [placementFrom_succ]

theorem scalesOf_append (a b : List Command) :
    scalesOf (a ++ b) = scalesOf a ++ scalesOf b := by
  simp [scalesOf, List.filterMap_append]

theorem scalesOf_add_object (name : String) (t : Transformation) :
    scalesOf (add_object name t) = [(t.Scale.x, t.Scale.y, t.Scale.z)] := rfl

theorem scalesOf_instances (name : String) (f : Nat → Transformation) (l : List Nat) :
    scalesOf (l.flatMap (fun k => add_object name (f k)))
      = l.map (fun k => ((f k).Scale.x, (f k).Scale.y, (f k).Scale.z)) := by
  induction l with
  | nil => rfl
  | cons a l ih =>
    rw [List.flatMap_cons, scalesOf_append, ih, scalesOf_add_object]
    rfl

theorem translatesOf_append (a b : List Command) :
    translatesOf (a ++ b) = translatesOf a ++ translatesOf b := by
  simp [translatesOf, List.filterMap_append]

theorem translatesOf_instances (name : String) (f : Nat → Transformation) (l : List Nat) :
    translatesOf (l.flatMap (fun k => add_object name (f k)))
      = l.map (fun k => ((f k).Translate.x, (f k).Translate.y, (f k).Translate.z)) := by
  induction l with
  | nil => rfl
  | cons a l ih =>
    rw [List.flatMap_cons, translatesOf_append, ih]
    rfl

theorem count_instances (name : String) (f : Nat → Transformation) (l : List Nat) :
    (l.flatMap (fun k => add_object name (f k))).count (Command.ObjectInstance name)
      = l.length := by
  induction l with
  | nil => rfl
  | cons a l ih =>
    rw [List.flatMap_cons, List.count_append, ih]
    simp [add_object, List.count_cons]
    omega

theorem pine_trees_eq (name : String) (n : Nat) (t0 : Transformation) :
    pine_trees name n t0 =
      (List.range n).flatMap (fun i => add_object name (placementAt t0 i)) :=
  pine_loop_eq name n (n - 0) 0 t0 40 rfl

/-- C9: in exact rational arithmetic, for every template name, repetition
count n and initial transform, the placement loop emits exactly n instances
of the template, the i-th (i = 0 .. n-1) placed with every scale component
multiplied by 0.8^i, x translation x0 - 8*i, y translation
y0 + sum for k = 1..i of 40 * 0.7^k, and z, angle and axis unchanged; with
scale 1 and n = 3 the instance scales are [1, 0.8, 0.64], and in `main`
(scale 0.8, n = 10) they are 0.8^(i+1). -/
theorem pine_trees_geometric (name : String) (n : Nat) (t0 : Transformation) :
    pine_trees name n t0 =
      (List.range n).flatMap (fun (i : Nat) => add_object name
        { Translate := ⟨t0.Translate.x - 8 * i,
                        t0.Translate.y + ∑ k in Finset.Icc 1 i, 40 * (0.7 : ℚ) ^ k,
                        t0.Translate.z⟩
          Scale := ⟨t0.Scale.x * (0.8 : ℚ) ^ i, t0.Scale.y * (0.8 : ℚ) ^ i,
                    t0.Scale.z * (0.8 : ℚ) ^ i⟩
          Deg := t0.Deg
          Rotate := t0.Rotate })
    ∧ (pine_trees name n t0).count (Command.ObjectInstance name) = n
    ∧ scalesOf (pine_trees name n t0) =
        (List.range n).map (fun (i : Nat) =>
          (t0.Scale.x * (0.8 : ℚ) ^ i, t0.Scale.y * (0.8 : ℚ) ^ i,
           t0.Scale.z * (0.8 : ℚ) ^ i))
    ∧ translatesOf (pine_trees name n t0) =
        (List.range n).map (fun (i : Nat) =>
          (t0.Translate.x - 8 * i,
           t0.Translate.y + ∑ k in Finset.Icc 1 i, 40 * (0.7 : ℚ) ^ k,
           t0.Translate.z))
    ∧ scalesOf (pine_trees name 3 { t0 with Scale := ⟨1.0, 1.0, 1.0⟩ }) =
        [(1.0, 1.0, 1.0), (0.8, 0.8, 0.8), (0.64, 0.64, 0.64)]
    ∧ scalesOf main_pine_trees =
        (List.range 10).map (fun (i : Nat) =>
          ((0.8 : ℚ) ^ (i + 1), (0.8 : ℚ) ^ (i + 1), (0.8 : ℚ) ^ (i + 1))) := by
  refine ⟨pine_trees_eq name n t0, ?_, ?_, ?_, ?_, ?_⟩
  · rw [pine_trees_eq, count_instances, List.length_range]
  · rw [pine_trees_eq, scalesOf_instances]
    rfl
  · rw [pine_trees_eq, translatesOf_instances]
    rfl
  · rw [pine_trees_eq, scalesOf_instances]
    simp [placementAt, List.range_succ]
    norm_num
  · rw [main_pine_trees, pine_trees_eq, scalesOf_instances]
    apply List.map_congr_left
    intro i _
    simp only [placementAt, pow_succ]
    simp only [Prod.mk.injEq]
    refine ⟨?_, ?_, ?_⟩ <;> ring

/-! ## Rotation matrices -/

theorem castSucc_two : (2 : Fin 3).castSucc = (2 : Fin 4) := rfl

/-- Entry equations of a proper rotation: orthonormal rows, orthonormal
columns, and the three diagonal cofactor identities. -/
theorem IsRotation.entries {m : Fin 4 → Fin 4 → ℝ} (h : IsRotation m) :
    (m 0 0 * m 0 0 + m 0 1 * m 0 1 + m 0 2 * m 0 2 = 1
      ∧ m 1 0 * m 1 0 + m 1 1 * m 1 1 + m 1 2 * m 1 2 = 1
      ∧ m 2 0 * m 2 0 + m 2 1 * m 2 1 + m 2 2 * m 2 2 = 1)
    ∧ (m 0 0 * m 0 0 + m 1 0 * m 1 0 + m 2 0 * m 2 0 = 1
      ∧ m 0 1 * m 0 1 + m 1 1 * m 1 1 + m 2 1 * m 2 1 = 1
      ∧ m 0 2 * m 0 2 + m 1 2 * m 1 2 + m 2 2 * m 2 2 = 1)
    ∧ (m 1 1 * m 2 2 - m 1 2 * m 2 1 = m 0 0
      ∧ m 0 0 * m 2 2 - m 0 2 * m 2 0 = m 1 1
      ∧ m 0 0 * m 1 1 - m 0 1 * m 1 0 = m 2 2) := by
  obtain ⟨hrow, hdet⟩ := h
  have hcol : (rotationBlock m).transpose * rotationBlock m = 1 :=
    Matrix.mul_eq_one_comm.mp hrow
  have hadj : (rotationBlock m).adjugate = (rotationBlock m).transpose := by
    calc (rotationBlock m).adjugate
        = ((rotationBlock m).transpose * rotationBlock m) * (rotationBlock m).adjugate := by
          rw [hcol, Matrix.one_mul]
      _ = (rotationBlock m).transpose * (rotationBlock m * (rotationBlock m).adjugate) := by
          rw [Matrix.mul_assoc]
      _ = (rotationBlock m).transpose := by
          rw [Matrix.mul_adjugate, hdet, one_smul, Matrix.mul_one]
  rw [Matrix.adjugate_fin_three] at hadj
  have r00 := congrFun (congrFun hrow 0) 0
  have r11 := congrFun (congrFun hrow 1) 1
  have r22 := congrFun (congrFun hrow 2) 2
  have c00 := congrFun (congrFun hcol 0) 0
  have c11 := congrFun (congrFun hcol 1) 1
  have c22 := congrFun (congrFun hcol 2) 2
  have a00 := congrFun (congrFun hadj 0) 0
  have a11 := congrFun (congrFun hadj 1) 1
  have a22 := congrFun (congrFun hadj 2) 2
  simp [Matrix.mul_apply, Fin.sum_univ_three, rotationBlock, castSucc_two] at r00 r11 r22 c00 c11 c22
  simp [rotationBlock, castSucc_two] at a00 a11 a22
  exact ⟨⟨r00, r11, r22⟩, ⟨c00, c11, c22⟩, ⟨a00, a11, a22⟩⟩

/-- A real `q` whose product `q * (4 - q)` is non-negative is itself
non-negative. -/
theorem nonneg_of_mul_nonneg {q : ℝ} (h : 0 ≤ q * (4 - q)) : 0 ≤ q := by
  by_contra hneg
  push_neg at hneg
  have : q * (4 - q) < 0 := mul_neg_of_neg_of_pos hneg (by linarith)
  linarith

/-- Algebra of the nine entries of a proper rotation: the four quantities
under the clamped square roots are non-negative and the trace is at most 3. -/
theorem rotation_algebra (a b c d e f g h k : ℝ)
    (r0 : a * a + b * b + c * c = 1) (r1 : d * d + e * e + f * f = 1)
    (r2 : g * g + h * h + k * k = 1) (c0 : a * a + d * d + g * g = 1)
    (c1 : b * b + e * e + h * h = 1) (c2 : c * c + f * f + k * k = 1)
    (a0 : e * k - f * h = a) (a1 : a * k - c * g = e) (a2 : a * e - b * d = k) :
    0 ≤ 1 + a + e + k ∧ 0 ≤ 1 + a - e - k ∧ 0 ≤ 1 - a + e - k ∧ 0 ≤ 1 - a - e + k
      ∧ a + e + k ≤ 3 := by
  have d0 : a ≤ 1 := by nlinarith [sq_nonneg b, sq_nonneg c, sq_nonneg (a - 1)]
  have d1 : e ≤ 1 := by nlinarith [sq_nonneg d, sq_nonneg f, sq_nonneg (e - 1)]
  have d2 : k ≤ 1 := by nlinarith [sq_nonneg g, sq_nonneg h, sq_nonneg (k - 1)]
  have q0 : (1 + a + e + k) * (4 - (1 + a + e + k))
      = (h - f) ^ 2 + (c - g) ^ 2 + (d - b) ^ 2 := by
    linear_combination (-1) * (r0 + r1 + r2) - 2 * (a0 + a1 + a2)
  have q1 : (1 + a - e - k) * (4 - (1 + a - e - k))
      = (h - f) ^ 2 + (b + d) ^ 2 + (c + g) ^ 2 := by
    linear_combination (-2) * (r0 + r1 + r2) + (c0 + c1 + c2) - 2 * a0 + 2 * a1 + 2 * a2
  have q2 : (1 - a + e - k) * (4 - (1 - a + e - k))
      = (c - g) ^ 2 + (b + d) ^ 2 + (f + h) ^ 2 := by
    linear_combination (-2) * (r0 + r1 + r2) + (c0 + c1 + c2) + 2 * a0 - 2 * a1 + 2 * a2
  have q3 : (1 - a - e + k) * (4 - (1 - a - e + k))
      = (d - b) ^ 2 + (c + g) ^ 2 + (f + h) ^ 2 := by
    linear_combination (-2) * (r0 + r1 + r2) + (c0 + c1 + c2) + 2 * a0 + 2 * a1 - 2 * a2
  refine ⟨?_, ?_, ?_, ?_, by linarith⟩
  · exact nonneg_of_mul_nonneg (by rw [q0]; positivity)
  · exact nonneg_of_mul_nonneg (by rw [q1]; positivity)
  · exact nonneg_of_mul_nonneg (by rw [q2]; positivity)
  · exact nonneg_of_mul_nonneg (by rw [q3]; positivity)

/-- The four quantities under the clamped square roots are non-negative for a
proper rotation, and its trace is at most 3. -/
theorem IsRotation.quat_args_nonneg {m : Fin 4 → Fin 4 → ℝ} (h : IsRotation m) :
    0 ≤ 1 + m 0 0 + m 1 1 + m 2 2
    ∧ 0 ≤ 1 + m 0 0 - m 1 1 - m 2 2
    ∧ 0 ≤ 1 - m 0 0 + m 1 1 - m 2 2
    ∧ 0 ≤ 1 - m 0 0 - m 1 1 + m 2 2
    ∧ m 0 0 + m 1 1 + m 2 2 ≤ 3 := by
  obtain ⟨⟨r0, r1, r2⟩, ⟨c0, c1, c2⟩, ⟨a0, a1, a2⟩⟩ := h.entries
  exact rotation_algebra _ _ _ _ _ _ _ _ _ r0 r1 r2 c0 c1 c2 a0 a1 a2

theorem matrixToAxisAngle_eq (m : Fin 4 → Fin 4 → ℝ) :
    matrixToAxisAngle m =
      ⟨2 * Real.arccos (quatW m) * (180 / Real.pi),
       ⟨quatX m / axisDivisor m, quatY m / axisDivisor m, quatZ m / axisDivisor m⟩⟩ :=
  rfl

theorem quatW_mul_self {m : Fin 4 → Fin 4 → ℝ} (h : 0 ≤ 1 + m 0 0 + m 1 1 + m 2 2) :
    quatW m * quatW m = (1 + m 0 0 + m 1 1 + m 2 2) / 4 := by
  unfold quatW
  rw [max_eq_right h]
  have := Real.mul_self_sqrt h
  linear_combination this / 4

theorem quatX_mul_self {m : Fin 4 → Fin 4 → ℝ} (h : 0 ≤ 1 + m 0 0 - m 1 1 - m 2 2) :
    quatX m * quatX m = (1 + m 0 0 - m 1 1 - m 2 2) / 4 := by
  unfold quatX
  rw [max_eq_right h]
  have := Real.mul_self_sqrt h
  linear_combination this / 4

theorem quatY_mul_self {m : Fin 4 → Fin 4 → ℝ} (h : 0 ≤ 1 - m 0 0 + m 1 1 - m 2 2) :
    quatY m * quatY m = (1 - m 0 0 + m 1 1 - m 2 2) / 4 := by
  unfold quatY
  rw [max_eq_right h]
  have := Real.mul_self_sqrt h
  linear_combination this / 4

theorem quatZ_mul_self {m : Fin 4 → Fin 4 → ℝ} (h : 0 ≤ 1 - m 0 0 - m 1 1 + m 2 2) :
    quatZ m * quatZ m = (1 - m 0 0 - m 1 1 + m 2 2) / 4 := by
  unfold quatZ
  rw [max_eq_right h]
  have := Real.mul_self_sqrt h
  linear_combination this / 4

theorem quatW_nonneg (m : Fin 4 → Fin 4 → ℝ) : 0 ≤ quatW m := by
  unfold quatW
  positivity

theorem isRotation_identity4 : IsRotation identity4 := by
  have hb : rotationBlock identity4 = 1 := by
    ext i j
    fin_cases i <;> fin_cases j <;> simp [rotationBlock, identity4] <;> rfl
  unfold IsRotation
  rw [hb]
  simp

theorem isRotation_halfTurnZ : IsRotation halfTurnZ := by
  constructor
  · ext i j
    fin_cases i <;> fin_cases j <;>
      simp [rotationBlock, halfTurnZ, Matrix.mul_apply, Fin.sum_univ_three, castSucc_two]
  · simp [Matrix.det_fin_three, rotationBlock, halfTurnZ, castSucc_two]

theorem isRotation_quarterTurnNegZ : IsRotation quarterTurnNegZ := by
  constructor
  · ext i j
    fin_cases i <;> fin_cases j <;>
      simp [rotationBlock, quarterTurnNegZ, Matrix.mul_apply, Fin.sum_univ_three, castSucc_two]
  · simp [Matrix.det_fin_three, rotationBlock, quarterTurnNegZ, castSucc_two]

/-- C6: for every properly orthonormal rotation matrix, in real arithmetic,
each of the seven square roots `matrixToAxisAngle` evaluates has a
non-negative argument (the four clamped ones and `1 - qw * qw`, used three
times), the trace lies in [-1, 3] and `qw` lies in [0, 1]. -/
theorem matrixToAxisAngle_sqrt_args_nonneg (m : Fin 4 → Fin 4 → ℝ) (h : IsRotation m) :
    (∀ a ∈ sqrtArguments m, 0 ≤ a)
    ∧ -1 ≤ trace3 m ∧ trace3 m ≤ 3
    ∧ 0 ≤ quatW m ∧ quatW m ≤ 1
    ∧ 0 ≤ 1 - quatW m * quatW m := by
  obtain ⟨hw, -, -, -, ht⟩ := h.quat_args_nonneg
  have hsq := quatW_mul_self hw
  have hq0 := quatW_nonneg m
  have hq1 : quatW m ≤ 1 := by nlinarith
  have hd : 0 ≤ 1 - quatW m * quatW m := by nlinarith
  refine ⟨?_, by unfold trace3; linarith, by unfold trace3; linarith, hq0, hq1, hd⟩
  intro a ha
  simp only [sqrtArguments, List.mem_cons, List.mem_singleton, List.not_mem_nil,
    or_false] at ha
  rcases ha with rfl | rfl | rfl | rfl | rfl | rfl | rfl
  · exact le_max_left _ _
  · exact le_max_left _ _
  · exact le_max_left _ _
  · exact le_max_left _ _
  · exact hd
  · exact hd
  · exact hd

/-- Witness of C6 on the rotation by 180 degrees about the z axis. -/
theorem matrixToAxisAngle_sqrt_args_nonneg_witness :
    (∀ a ∈ sqrtArguments halfTurnZ, 0 ≤ a)
    ∧ -1 ≤ trace3 halfTurnZ ∧ trace3 halfTurnZ ≤ 3
    ∧ 0 ≤ quatW halfTurnZ ∧ quatW halfTurnZ ≤ 1
    ∧ 0 ≤ 1 - quatW halfTurnZ * quatW halfTurnZ :=
  matrixToAxisAngle_sqrt_args_nonneg halfTurnZ isRotation_halfTurnZ

/-- C5: the identity matrix is a rotation matrix, and on it `qw` is 1, the
divisor `sqrt(1 - qw * qw)` of the axis components is zero and the three
numerators `qx`, `qy`, `qz` are zero: the axis is computed as 0 / 0. -/
theorem matrixToAxisAngle_identity_divisor_zero :
    IsRotation identity4 ∧ quatW identity4 = 1 ∧ axisDivisor identity4 = 0
    ∧ quatX identity4 = 0 ∧ quatY identity4 = 0 ∧ quatZ identity4 = 0 := by
  have hw : quatW identity4 = 1 := by
    have h4 : Real.sqrt 4 = 2 := by
      rw [show (4 : ℝ) = 2 ^ 2 by norm_num]
      exact Real.sqrt_sq (by norm_num)
    simp only [quatW, identity4, Matrix.cons_val_zero, Matrix.cons_val_one, Matrix.head_cons,
      Matrix.cons_val_two, Matrix.tail_cons]
    norm_num
    rw [h4]
    norm_num
  refine ⟨isRotation_identity4, hw, ?_, ?_, ?_, ?_⟩
  · simp [axisDivisor, hw]
  · simp [quatX, identity4]
  · simp [quatY, identity4]
  · simp [quatZ, identity4]

/-- In exact real arithmetic only: for an exactly orthonormal rotation
matrix other than the identity (trace not 3) the divisor `sqrt(1 - qw * qw)`
is positive, the returned axis has unit length and the returned angle lies in
[0, 180] degrees.  This says nothing about the rounded float computation near
trace 3, where `1 - qw * qw` cancels. -/
theorem matrixToAxisAngle_axis_unit (m : Fin 4 → Fin 4 → ℝ) (h : IsRotation m)
    (ht : trace3 m ≠ 3) :
    axisDivisor m ≠ 0
    ∧ (matrixToAxisAngle m).vec.x ^ 2 + (matrixToAxisAngle m).vec.y ^ 2
        + (matrixToAxisAngle m).vec.z ^ 2 = 1
    ∧ 0 ≤ (matrixToAxisAngle m).deg ∧ (matrixToAxisAngle m).deg ≤ 180 := by
  obtain ⟨hw, hx, hy, hz, ht3⟩ := h.quat_args_nonneg
  have hsw := quatW_mul_self hw
  have hsx := quatX_mul_self hx
  have hsy := quatY_mul_self hy
  have hsz := quatZ_mul_self hz
  have hlt : m 0 0 + m 1 1 + m 2 2 < 3 := lt_of_le_of_ne ht3 ht
  have hpos : 0 < 1 - quatW m * quatW m := by rw [hsw]; linarith
  have hdpos : 0 < axisDivisor m := Real.sqrt_pos.mpr hpos
  have hdd : axisDivisor m * axisDivisor m = 1 - quatW m * quatW m :=
    Real.mul_self_sqrt hpos.le
  have hd0 : axisDivisor m ≠ 0 := hdpos.ne.symm
  refine ⟨hd0, ?_, ?_, ?_⟩
  · rw [matrixToAxisAngle_eq]
    simp only []
    field_simp
    nlinarith
  · rw [matrixToAxisAngle_eq]
    simp only []
    have := Real.arccos_nonneg (quatW m)
    positivity
  · rw [matrixToAxisAngle_eq]
    simp only []
    have hle : Real.arccos (quatW m) ≤ Real.pi / 2 :=
      Real.arccos_le_pi_div_two.mpr (quatW_nonneg m)
    have hpi := Real.pi_pos
    calc 2 * Real.arccos (quatW m) * (180 / Real.pi)
        ≤ 2 * (Real.pi / 2) * (180 / Real.pi) := by gcongr
      _ = 180 := by field_simp

/-- The exact-real statement above on the rotation by 180 degrees about the
z axis. -/
theorem matrixToAxisAngle_axis_unit_witness :
    axisDivisor halfTurnZ ≠ 0
    ∧ (matrixToAxisAngle halfTurnZ).vec.x ^ 2 + (matrixToAxisAngle halfTurnZ).vec.y ^ 2
        + (matrixToAxisAngle halfTurnZ).vec.z ^ 2 = 1
    ∧ 0 ≤ (matrixToAxisAngle halfTurnZ).deg ∧ (matrixToAxisAngle halfTurnZ).deg ≤ 180 :=
  matrixToAxisAngle_axis_unit halfTurnZ isRotation_halfTurnZ
    (by simp [trace3, halfTurnZ]; norm_num)

theorem sqrt_two_mul_self : Real.sqrt 2 * Real.sqrt 2 = 2 :=
  Real.mul_self_sqrt (by norm_num)

theorem quatW_quarterTurnNegZ : quatW quarterTurnNegZ = Real.sqrt 2 / 2 := by
  simp only [quatW, quarterTurnNegZ, Matrix.cons_val_zero, Matrix.cons_val_one,
    Matrix.head_cons, Matrix.cons_val_two, Matrix.tail_cons]
  norm_num

theorem axisDivisor_quarterTurnNegZ : axisDivisor quarterTurnNegZ = Real.sqrt 2 / 2 := by
  unfold axisDivisor
  rw [quatW_quarterTurnNegZ]
  have h2 := sqrt_two_mul_self
  have hpos : (0 : ℝ) ≤ Real.sqrt 2 / 2 := by positivity
  rw [show 1 - Real.sqrt 2 / 2 * (Real.sqrt 2 / 2) = (Real.sqrt 2 / 2) * (Real.sqrt 2 / 2) by
    linear_combination (-1 / 2) * h2]
  exact Real.sqrt_mul_self hpos

theorem sqrt_eq_of_sq {x y : ℝ} (hy : 0 ≤ y) (h : x = y * y) : Real.sqrt x = y := by
  rw [h]
  exact Real.sqrt_mul_self hy

/-- What `matrixToAxisAngle` returns on the rotation matrix of a unit axis and
an angle strictly between 0 and 180 degrees: the angle itself, and the axis
with every component replaced by its absolute value. -/
theorem matrixToAxisAngle_axisAngleToMatrix (θ : ℝ) (a : Vector3f ℝ)
    (hu : a.x ^ 2 + a.y ^ 2 + a.z ^ 2 = 1) (h0 : 0 < θ) (h180 : θ < 180) :
    matrixToAxisAngle (axisAngleToMatrix θ a) = ⟨θ, ⟨|a.x|, |a.y|, |a.z|⟩⟩ := by
  have hpi := Real.pi_pos
  set φ : ℝ := θ * Real.pi / 360 with hφ
  have hφ0 : 0 < φ := by positivity
  have hφ1 : φ < Real.pi / 2 := by
    rw [hφ]
    have : θ * Real.pi < 180 * Real.pi := mul_lt_mul_of_pos_right h180 hpi
    linarith
  have hang : θ * Real.pi / 180 = 2 * φ := by rw [hφ]; ring
  have hcos : 0 < Real.cos φ :=
    Real.cos_pos_of_mem_Ioo ⟨by linarith, hφ1⟩
  have hsin : 0 < Real.sin φ := Real.sin_pos_of_pos_of_lt_pi hφ0 (by linarith)
  have hc2 : Real.cos (2 * φ) = 2 * Real.cos φ ^ 2 - 1 := Real.cos_two_mul φ
  have hsc : Real.sin φ ^ 2 + Real.cos φ ^ 2 = 1 := Real.sin_sq_add_cos_sq φ
  have hw : quatW (axisAngleToMatrix θ a) = Real.cos φ := by
    have harg : max 0 (1 + axisAngleToMatrix θ a 0 0 + axisAngleToMatrix θ a 1 1
        + axisAngleToMatrix θ a 2 2) = (2 * Real.cos φ) * (2 * Real.cos φ) := by
      rw [max_eq_right]
      · simp only [axisAngleToMatrix, hang, hc2, Matrix.cons_val_zero, Matrix.cons_val_one,
          Matrix.head_cons, Matrix.cons_val_two, Matrix.tail_cons]
        linear_combination (2 - 2 * Real.cos φ ^ 2) * hu
      · simp only [axisAngleToMatrix, hang, hc2, Matrix.cons_val_zero, Matrix.cons_val_one,
          Matrix.head_cons, Matrix.cons_val_two, Matrix.tail_cons]
        nlinarith [sq_nonneg (Real.cos φ)]
    unfold quatW
    rw [sqrt_eq_of_sq (by positivity) harg]
    ring
  have hd : axisDivisor (axisAngleToMatrix θ a) = Real.sin φ := by
    unfold axisDivisor
    rw [hw]
    exact sqrt_eq_of_sq hsin.le (by linear_combination (-1 : ℝ) * hsc)
  have hx : quatX (axisAngleToMatrix θ a) = Real.sin φ * |a.x| := by
    have harg : 1 + axisAngleToMatrix θ a 0 0 - axisAngleToMatrix θ a 1 1
        - axisAngleToMatrix θ a 2 2
        = (2 * (Real.sin φ * |a.x|)) * (2 * (Real.sin φ * |a.x|)) := by
      simp only [axisAngleToMatrix, hang, hc2, Matrix.cons_val_zero, Matrix.cons_val_one,
        Matrix.head_cons, Matrix.cons_val_two, Matrix.tail_cons]
      have habs : |a.x| * |a.x| = a.x * a.x := abs_mul_abs_self a.x
      linear_combination (2 * Real.cos φ ^ 2 - 2) * hu
        + (-4 * a.x ^ 2) * hsc - 4 * Real.sin φ ^ 2 * habs
    unfold quatX
    rw [max_eq_right (by rw [harg]; positivity), sqrt_eq_of_sq (by positivity) harg]
    ring
  have hy : quatY (axisAngleToMatrix θ a) = Real.sin φ * |a.y| := by
    have harg : 1 - axisAngleToMatrix θ a 0 0 + axisAngleToMatrix θ a 1 1
        - axisAngleToMatrix θ a 2 2
        = (2 * (Real.sin φ * |a.y|)) * (2 * (Real.sin φ * |a.y|)) := by
      simp only [axisAngleToMatrix, hang, hc2, Matrix.cons_val_zero, Matrix.cons_val_one,
        Matrix.head_cons, Matrix.cons_val_two, Matrix.tail_cons]
      have habs : |a.y| * |a.y| = a.y * a.y := abs_mul_abs_self a.y
      linear_combination (2 * Real.cos φ ^ 2 - 2) * hu
        + (-4 * a.y ^ 2) * hsc - 4 * Real.sin φ ^ 2 * habs
    unfold quatY
    rw [max_eq_right (by rw [harg]; positivity), sqrt_eq_of_sq (by positivity) harg]
    ring
  have hz : quatZ (axisAngleToMatrix θ a) = Real.sin φ * |a.z| := by
    have harg : 1 - axisAngleToMatrix θ a 0 0 - axisAngleToMatrix θ a 1 1
        + axisAngleToMatrix θ a 2 2
        = (2 * (Real.sin φ * |a.z|)) * (2 * (Real.sin φ * |a.z|)) := by
      simp only [axisAngleToMatrix, hang, hc2, Matrix.cons_val_zero, Matrix.cons_val_one,
        Matrix.head_cons, Matrix.cons_val_two, Matrix.tail_cons]
      have habs : |a.z| * |a.z| = a.z * a.z := abs_mul_abs_self a.z
      linear_combination (2 * Real.cos φ ^ 2 - 2) * hu
        + (-4 * a.z ^ 2) * hsc - 4 * Real.sin φ ^ 2 * habs
    unfold quatZ
    rw [max_eq_right (by rw [harg]; positivity), sqrt_eq_of_sq (by positivity) harg]
    ring
  rw [matrixToAxisAngle_eq, hw, hd, hx, hy, hz,
    Real.arccos_cos hφ0.le (by linarith)]
  have hs0 : Real.sin φ ≠ 0 := hsin.ne.symm
  rw [mul_div_cancel_left₀ _ hs0, mul_div_cancel_left₀ _ hs0, mul_div_cancel_left₀ _ hs0]
  congr 1
  rw [hφ]
  field_simp
  ring

/-- C4 fails on the rotation by 90 degrees about the unit axis (0, 0, -1):
its matrix is `quarterTurnNegZ`, and `matrixToAxisAngle` returns the angle 90
with the axis (0, 0, 1), which is neither (90, (0, 0, -1)) nor
(270, (0, 0, 1)); converting the result back gives a different matrix. -/
theorem matrixToAxisAngle_loses_axis_sign :
    axisAngleToMatrix 90 ⟨0, 0, -1⟩ = quarterTurnNegZ
    ∧ (matrixToAxisAngle quarterTurnNegZ).deg = 90
    ∧ (matrixToAxisAngle quarterTurnNegZ).vec = ⟨0, 0, 1⟩
    ∧ (matrixToAxisAngle quarterTurnNegZ).vec ≠ ⟨0, 0, -1⟩
    ∧ (matrixToAxisAngle quarterTurnNegZ).deg ≠ 360 - 90
    ∧ axisAngleToMatrix (matrixToAxisAngle quarterTurnNegZ).deg
        (matrixToAxisAngle quarterTurnNegZ).vec ≠ quarterTurnNegZ := by
  have hang : (90 : ℝ) * Real.pi / 180 = Real.pi / 2 := by ring
  have hdeg : (matrixToAxisAngle quarterTurnNegZ).deg = 90 := by
    rw [matrixToAxisAngle_eq]
    simp only []
    rw [quatW_quarterTurnNegZ, ← Real.cos_pi_div_four,
      Real.arccos_cos (by positivity) (by linarith [Real.pi_pos])]
    have hpi := Real.pi_pos
    field_simp
    ring
  have hz : quatZ quarterTurnNegZ = Real.sqrt 2 / 2 := by
    simp only [quatZ, quarterTurnNegZ, Matrix.cons_val_zero, Matrix.cons_val_one,
      Matrix.head_cons, Matrix.cons_val_two, Matrix.tail_cons]
    norm_num
  have hx : quatX quarterTurnNegZ = 0 := by
    simp [quatX, quarterTurnNegZ]
  have hy : quatY quarterTurnNegZ = 0 := by
    simp [quatY, quarterTurnNegZ]
  have hs2 : Real.sqrt 2 / 2 ≠ 0 := by positivity
  have hvec : (matrixToAxisAngle quarterTurnNegZ).vec = ⟨0, 0, 1⟩ := by
    rw [matrixToAxisAngle_eq]
    simp only [hx, hy, hz, axisDivisor_quarterTurnNegZ, zero_div, div_self hs2]
  refine ⟨?_, hdeg, hvec, ?_, ?_, ?_⟩
  · funext i j
    fin_cases i <;> fin_cases j <;>
      simp [axisAngleToMatrix, quarterTurnNegZ, hang]
  · rw [hvec]
    intro h
    have := congrArg Vector3f.z h
    norm_num at this
  · rw [hdeg]
    norm_num
  · rw [hdeg, hvec]
    intro h
    have h01 := congrFun (congrFun h 0) 1
    simp [axisAngleToMatrix, quarterTurnNegZ, hang] at h01
    norm_num at h01

end PbrtAsLib
